import Mathlib

/-!
Verification development for the `git-repositories` VSCode extension core
(repository scanner, worktree porcelain parser, remote-URL classification,
grouping tree construction and workspace tracking).

The TypeScript sources are embedded shallowly: pure functions become Lean
functions, the filesystem and the external `git` calls become explicit
parameters, and JavaScript `Map`s become insertion-ordered association lists.
String manipulation is done on the underlying character lists so that every
definition evaluates by kernel reduction.
-/

/- ## String helpers (models of the JavaScript / Node string primitives used) -/

/-- Helper for `splitChar`: accumulates the current segment (reversed). -/
def splitCharAux (c : Char) : List Char → List Char → List (List Char)
  | [], acc => [acc.reverse]
  | x :: xs, acc =>
    if x == c then acc.reverse :: splitCharAux c xs []
    else splitCharAux c xs (x :: acc)

/-- Models JavaScript `String.prototype.split` with a one-character separator
(the only separators the source uses are `"\n"` and `"/"`).
`split` never returns an empty list: `"" → [""]`, `"a\n" → ["a", ""]`. -/
def splitChar (c : Char) (s : String) : List String :=
  (splitCharAux c s.data []).map String.mk

/-- Models JavaScript `String.prototype.startsWith`. -/
def strStartsWith (s pre : String) : Bool :=
  List.isPrefixOf pre.data s.data

/-- Models JavaScript `String.prototype.substring(n)` (drop the first `n`
characters; the source only calls it with `n` ≤ the length). -/
def strDrop (s : String) (n : Nat) : String :=
  String.mk (s.data.drop n)

/-- Models JavaScript `String.prototype.substring(0, n)` (keep the first `n`
characters, clamped to the length, exactly as `substring` clamps). -/
def strTake (s : String) (n : Nat) : String :=
  String.mk (s.data.take n)

/-- Character count of a string (JavaScript `String.prototype.length` for the
ASCII strings this program manipulates). -/
def strLen (s : String) : Nat := s.data.length

/-- Models Node `path.posix.basename`: the final non-empty path segment
(trailing slashes ignored), `""` when there is none. -/
def pathBasename (p : String) : String :=
  match ((splitChar '/' p).filter (fun s => s ≠ "")).getLast? with
  | some s => s
  | none => ""

/-- Helper for `pathNormalize`: resolves `..` components against a stack of
already-emitted components. -/
def normStep (isAbs : Bool) (stack : List String) (comp : String) : List String :=
  if comp = ".." then
    match stack.getLast? with
    | some l => if l = ".." then stack ++ [comp] else stack.dropLast
    | none => if isAbs then stack else stack ++ [comp]
  else stack ++ [comp]

/-- Models Node `path.posix.normalize`: collapses duplicate slashes and `.`
segments and resolves `..` segments, returning `"."` for an empty result on a
relative path and `"/"` on an absolute one. (Node additionally preserves a
trailing slash; none of the paths this development reasons about has one.) -/
def pathNormalize (p : String) : String :=
  if p = "" then "."
  else
    let isAbs := strStartsWith p "/"
    let comps := (splitChar '/' p).filter (fun s => s ≠ "" ∧ s ≠ ".")
    let resolved := comps.foldl (normStep isAbs) []
    let joined := String.intercalate "/" resolved
    if isAbs then String.mk ('/' :: joined.data)
    else if joined = "" then "." else joined

/-- Models Node `path.join(dirPath, name)` as used by the scanner: concatenate
with a `/` separator and normalize. -/
def pathJoin (a b : String) : String :=
  pathNormalize (a ++ "/" ++ b)

/-- Truthiness of a JavaScript `string | undefined` value: `undefined` and the
empty string are falsy. -/
def strTruthy : Option String → Bool
  | none => false
  | some s => s ≠ ""

/- ## Data model (`scanner/repositoryScanner.ts`) -/

/-- Embeds interface `RemoteInfo`. -/
structure RemoteInfo where
  name : String
  fetchUrl : Option String := none
  pushUrl : Option String := none
deriving DecidableEq, Repr

/-- Embeds interface `WorktreeInfo`. -/
structure WorktreeInfo where
  name : String
  path : String
  branch : Option String := none
  isMain : Bool
  isDetached : Bool
  commitHash : Option String := none
  commitMessage : Option String := none
deriving DecidableEq, Repr

/-- Embeds interface `RepositoryInfo`. -/
structure RepositoryInfo where
  path : String
  name : String
  remotes : List RemoteInfo
  currentBranch : Option String := none
  isSubmodule : Bool
  worktrees : List WorktreeInfo
  lastScanned : String
deriving DecidableEq, Repr

/- ## Worktree porcelain parser
(`RepositoryScanner.extractRepositoryInfo`, lines 212–288) -/

/-- Embeds the mutable `Partial<WorktreeInfo>` accumulator `currentWorktree`:
every field may still be `undefined`. -/
structure WorktreeDraft where
  path : Option String := none
  name : Option String := none
  branch : Option String := none
  isMain : Option Bool := none
  isDetached : Option Bool := none
  commitHash : Option String := none
  commitMessage : Option String := none
deriving DecidableEq, Repr

/-- Truthiness of `currentWorktree.path` (the guard `if (currentWorktree.path)`
in the source: `undefined` and `""` are both falsy). -/
def WorktreeDraft.hasPath (w : WorktreeDraft) : Bool :=
  strTruthy w.path

/-- Embeds the unchecked cast `currentWorktree as WorktreeInfo` (pushed records
always went through the `worktree ` branch, which set `path`, `name`, `isMain`
and `isDetached`, so the defaults here are never observable). -/
def WorktreeDraft.cast (w : WorktreeDraft) : WorktreeInfo :=
  { path := w.path.getD ""
    name := w.name.getD ""
    branch := w.branch
    isMain := w.isMain.getD false
    isDetached := w.isDetached.getD false
    commitHash := w.commitHash
    commitMessage := w.commitMessage }

/-- Embeds the `for (const line of lines)` loop of the porcelain parser (source
lines 221–262), including the final `if (currentWorktree.path)` push. -/
def parseWorktreeLines : List String → WorktreeDraft → List WorktreeInfo
  | [], cur => if cur.hasPath then [cur.cast] else []
  | line :: rest, cur =>
    if strStartsWith line "worktree " then
      let pushed := if cur.hasPath then [cur.cast] else []
      pushed ++ parseWorktreeLines rest
        { path := some (strDrop line 9)  -- "worktree ".length = 9
          name := some ""
          isMain := some false
          isDetached := some false }
    else if strStartsWith line "HEAD " then
      let ref := strDrop line 5  -- "HEAD ".length = 5
      let cur :=
        if cur.hasPath then
          { cur with
            branch := some (if strStartsWith ref "refs/heads/" then strDrop ref 11 else ref)
            commitHash := some (strTake ref 8) }
        else cur
      parseWorktreeLines rest cur
    else if strStartsWith line "branch " then
      let cur :=
        if cur.hasPath then
          { cur with branch := some (strDrop line 18) }  -- "branch refs/heads/".length = 18
        else cur
      parseWorktreeLines rest cur
    else if line == "detached" then
      let cur := if cur.hasPath then { cur with isDetached := some true } else cur
      parseWorktreeLines rest cur
    else if line == "" then
      if cur.hasPath then cur.cast :: parseWorktreeLines rest {}
      else parseWorktreeLines rest cur
    else
      parseWorktreeLines rest cur

/-- Embeds the per-worktree commit lookup (source lines 268–281). The external
call `simpleGit(wt.path).log({ maxCount: 1 })` is a parameter `gitLog` giving
the latest commit's `(hash, message)`, or `none` when the call fails or there
is no latest commit; on `none` the record is left untouched. -/
def applyCommitInfo (gitLog : String → Option (String × String)) (w : WorktreeInfo) :
    WorktreeInfo :=
  match gitLog w.path with
  | some (h, m) =>
    { w with
      commitHash := some (strTake h 8)
      commitMessage := some (((splitChar '\n' m).headD "")) }
  | none => w

/-- Embeds the post-pass of the `for (const wt of worktrees)` loop (source
lines 264–282): set `name` and `isMain`, then apply the commit lookup. -/
def finalizeWorktree (gitLog : String → Option (String × String)) (repoPath : String)
    (wt : WorktreeInfo) : WorktreeInfo :=
  applyCommitInfo gitLog
    { wt with
      name := pathBasename wt.path
      isMain := pathNormalize wt.path == pathNormalize repoPath }

/-- Embeds the whole worktree-extraction block of `extractRepositoryInfo`
(source lines 212–288): split the porcelain output on `"\n"`, run the line
parser, then finalize every record. -/
def extractWorktrees (gitLog : String → Option (String × String)) (repoPath : String)
    (porcelain : String) : List WorktreeInfo :=
  (parseWorktreeLines (splitChar '\n' porcelain) {}).map (finalizeWorktree gitLog repoPath)

/- ## Directory scanner (`RepositoryScanner.scanPath`, lines 79–140) -/

mutual
/-- Embeds one `fs.Dirent` as seen through `readdir(..., { withFileTypes: true })`:
a regular file, a symbolic link, or a directory with its own entries (the
entries model what a later `readdir` of that directory returns). -/
inductive FSEntry where
  | file (name : String)
  | symlink (name : String)
  | dir (name : String) (entries : FSEntries)
deriving DecidableEq

/-- Entries of one directory, in `readdir` order. -/
inductive FSEntries where
  | nil
  | cons (head : FSEntry) (tail : FSEntries)
deriving DecidableEq
end

/-- Name of a directory entry (`Dirent.name`). -/
def FSEntry.name : FSEntry → String
  | .file n => n
  | .symlink n => n
  | .dir n _ => n

/-- Embeds `Dirent.isFile()`. -/
def FSEntry.isFile : FSEntry → Bool
  | .file _ => true
  | _ => false

/-- Embeds `Dirent.isDirectory()` (a symlink to a directory reports `false`, as
`readdir` with `withFileTypes` does not follow links). -/
def FSEntry.isDirectory : FSEntry → Bool
  | .dir _ _ => true
  | _ => false

/-- Embeds `Dirent.isSymbolicLink()`. -/
def FSEntry.isSymbolicLink : FSEntry → Bool
  | .symlink _ => true
  | _ => false

/-- Embeds `entries.find((e) => e.name === ".git")` (first match or `undefined`). -/
def FSEntries.find? (p : FSEntry → Bool) : FSEntries → Option FSEntry
  | .nil => none
  | .cons e rest => if p e then some e else rest.find? p

/-- Embeds `RepositoryScanner.MAX_DEPTH`. -/
def MAX_DEPTH : Nat := 10

/-- Embeds `RepositoryScanner.SKIP_DIRECTORIES`. -/
def SKIP_DIRECTORIES : List String :=
  ["node_modules", ".vscode", "dist", "build", "target", ".git"]

/-- Embeds the `for (const entry of entries)` loop of the inner closure
`scan(dirPath, depth)` of `scanPath` (source lines 123–131): descend into
non-symlink directories that are not in the skip list, accumulating the
seen-set and the discovered repositories in push order.

The recursive call `scan(path.join(dirPath, entry.name), depth + 1)` (source
line 129) is inlined as the value `r1` — its body is the whole of `scan`
(source lines 85–135, identical to `scanDir` below) — so that the recursion is
structural.  The ignore-matcher set is the predicate `ign` (`shouldIgnorePath`)
and the external metadata extraction `extractRepositoryInfo(dirPath, isGitFile)`
is the parameter `extract` (`none` models the `null` return on failure).  The
`Set` `seenPaths` is threaded as a list.  Unreadable directories (the `catch`
at source line 132) are not modelled: every directory of the `FSEntries` tree
is readable. -/
def scanChildren (ign : String → Bool) (extract : String → Bool → Option RepositoryInfo) :
    String → FSEntries → Nat → List String → List String × List RepositoryInfo
  | _, .nil, _, seen => (seen, [])
  | dirPath, .cons (.dir name sub) rest, depth, seen =>
    if SKIP_DIRECTORIES.contains name then
      scanChildren ign extract dirPath rest depth seen
    else
      let subPath := pathJoin dirPath name
      let r1 :=
        if depth + 1 > MAX_DEPTH then (seen, [])
        else if ign subPath then (seen, [])
        else
          match sub.find? (fun e => e.name == ".git") with
          | some gitEntry =>
            if gitEntry.isFile then (seen, [])
            else
              let normalizedPath := pathNormalize subPath
              if seen.contains normalizedPath then (seen, [])
              else
                match extract subPath gitEntry.isFile with
                | some repoInfo => (normalizedPath :: seen, [repoInfo])
                | none => (normalizedPath :: seen, [])
          | none => scanChildren ign extract subPath sub (depth + 1) seen
      let r2 := scanChildren ign extract dirPath rest depth r1.1
      (r2.1, r1.2 ++ r2.2)
  | dirPath, .cons _ rest, depth, seen =>
    scanChildren ign extract dirPath rest depth seen

/-- Embeds the inner closure `scan(dirPath, depth)` of `scanPath` (source
lines 85–135) applied to a directory whose `readdir` result is `entries`:
depth ceiling, ignore check, `.git` detection with the seen-set guard and the
hand-off to `extract`, and otherwise the entry loop (`scanChildren`).  The
returned pair is the final seen-set and the repositories pushed, in order. -/
def scanDir (ign : String → Bool) (extract : String → Bool → Option RepositoryInfo)
    (dirPath : String) (entries : FSEntries) (depth : Nat) (seen : List String) :
    List String × List RepositoryInfo :=
  if depth > MAX_DEPTH then (seen, [])
  else if ign dirPath then (seen, [])
  else
    match entries.find? (fun e => e.name == ".git") with
    | some gitEntry =>
      if gitEntry.isFile then (seen, [])
      else
        let normalizedPath := pathNormalize dirPath
        if seen.contains normalizedPath then (seen, [])
        else
          match extract dirPath gitEntry.isFile with
          | some repoInfo => (normalizedPath :: seen, [repoInfo])
          | none => (normalizedPath :: seen, [])
    | none => scanChildren ign extract dirPath entries depth seen

/-- Embeds `scanPath(basePath)` (source lines 79–140): scan the base directory
(whose `readdir` result is `rootEntries`) starting at depth 0 with an empty
seen-set and return the discovered repositories. -/
def scanPath (ign : String → Bool) (extract : String → Bool → Option RepositoryInfo)
    (basePath : String) (rootEntries : FSEntries) : List RepositoryInfo :=
  (scanDir ign extract basePath rootEntries 0 []).2

/-- Ignore predicate of a configuration with no ignore patterns (the
`shouldIgnorePath` of an empty `ignoreMatchers` list). -/
def noIgnore : String → Bool := fun _ => false

/-- Canonical always-successful metadata extraction: records the path handed to
`extractRepositoryInfo` together with the `isGitFile` flag it received (the
flag lands in `isSubmodule`, exactly as in the source). -/
def mkExtract : String → Bool → Option RepositoryInfo :=
  fun p isGitFile =>
    some
      { path := p
        name := pathBasename p
        remotes := []
        currentBranch := none
        isSubmodule := isGitFile
        worktrees := []
        lastScanned := "" }

/-- Directory chain with a repository at depth `n + 1` below the scan root:
`deepTree 0` is a root containing `repo/.git/`; `deepTree (n+1)` wraps
`deepTree n` in one more intermediate directory `d`. -/
def deepTree : Nat → FSEntries
  | 0 => .cons (.dir "repo" (.cons (.dir ".git" .nil) .nil)) .nil
  | n + 1 => .cons (.dir "d" (deepTree n)) .nil

/- ## Remote URL classification
(`RepositoryTreeDataProvider.extractDomain` / `extractOwner`, part_003
lines 559–609) -/

/-- Characters accepted by the regex character class `[^:\/]`. -/
def hostChar (c : Char) : Bool := !(c == ':' || c == '/')

/-- Characters of the regex character class `[:\/ ]`. -/
def sepChar (c : Char) : Bool := c == ':' || c == '/' || c == ' '

/-- Capture of `([^:\/]+)` at the start of `cs` with nothing following in the
pattern: the maximal run of host characters, failing if it is empty. -/
def capHost (cs : List Char) : Option String :=
  let run := cs.takeWhile hostChar
  if run.isEmpty then none else some (String.mk run)

/-- Capture of `([^\/]+)` at the start of `cs` with nothing following in the
pattern: the maximal run of non-`/` characters, failing if it is empty. -/
def capAuthority (cs : List Char) : Option String :=
  let run := cs.takeWhile (fun c => !(c == '/'))
  if run.isEmpty then none else some (String.mk run)

/-- Embeds `extractDomain` (part_003 lines 559–573): the regexes
`^(?:git@|ssh:\/\/(?:git@)?)([^:\/]+)` and `^https?:\/\/([^\/]+)` tried in
order (with the regex engine's backtracking over the optional `git@`),
defaulting to `"unknown"`. -/
def extractDomain (remoteUrl : String) : String :=
  let sshMatch :=
    if strStartsWith remoteUrl "git@" then capHost (remoteUrl.data.drop 4)
    else if strStartsWith remoteUrl "ssh://git@" then
      match capHost (remoteUrl.data.drop 10) with
      | some d => some d
      | none => capHost (remoteUrl.data.drop 6)
    else if strStartsWith remoteUrl "ssh://" then capHost (remoteUrl.data.drop 6)
    else none
  match sshMatch with
  | some d => d
  | none =>
    let httpsMatch :=
      if strStartsWith remoteUrl "https://" then capAuthority (remoteUrl.data.drop 8)
      else if strStartsWith remoteUrl "http://" then capAuthority (remoteUrl.data.drop 7)
      else none
    match httpsMatch with
    | some d => d
    | none => "unknown"

/-- Match of `[^:\/]+[:\/ ](.+?)(?:\.git)?$` once at least one host character
has been consumed: greedily extend the host run, backtracking to treat a
character of `[:\/ ]` as the separator, and return the characters after the
separator (the source of the lazy capture), which must be non-empty. -/
def sshAfterFirst : List Char → Option (List Char)
  | [] => none
  | c :: cs =>
    if hostChar c then
      match sshAfterFirst cs with
      | some r => some r
      | none => if sepChar c ∧ cs ≠ [] then some cs else none
    else if sepChar c ∧ cs ≠ [] then some cs else none

/-- Match of `[^:\/]+[:\/ ](.+?)(?:\.git)?$` against `cs` (the tail of the URL
after the SSH prefix): the host needs at least one `[^:\/]` character. -/
def sshOwnerMatch : List Char → Option (List Char)
  | [] => none
  | c :: cs => if hostChar c then sshAfterFirst cs else none

/-- Value of the lazy capture `(.+?)(?:\.git)?$` on the non-empty suffix `s`:
the shortest non-empty prefix of `s` whose remainder is `".git"` or empty,
i.e. `s` with a trailing `".git"` removed when that leaves something. -/
def lazyDotGit (s : List Char) : List Char :=
  if 5 ≤ s.length ∧ s.drop (s.length - 4) = ".git".data then s.take (s.length - 4)
  else s

/-- Match of `[^\/]+\/(.+?)(?:\.git)?$` against `cs` (the tail of the URL after
`https?:\/\/`): maximal non-`/` authority run, a `/`, then the non-empty
capture source. -/
def httpsOwnerMatch (cs : List Char) : Option (List Char) :=
  let auth := cs.takeWhile (fun c => !(c == '/'))
  if auth.isEmpty then none
  else
    match cs.drop auth.length with
    | '/' :: rest => if rest = [] then none else some rest
    | _ => none

/-- The variable `pathPart` of `extractOwner` (part_003 lines 576–592): the
lazy capture of the SSH owner regex
`^(?:git@|ssh:\/\/(?:git@)?)[^:\/]+[:\/ ](.+?)(?:\.git)?$`, else of the HTTPS
one `^https?:\/\/[^\/]+\/(.+?)(?:\.git)?$`, else the initial `""`. -/
def ownerPathPart (remoteUrl : String) : String :=
  let sshMatch :=
    if strStartsWith remoteUrl "git@" then sshOwnerMatch (remoteUrl.data.drop 4)
    else if strStartsWith remoteUrl "ssh://git@" then
      match sshOwnerMatch (remoteUrl.data.drop 10) with
      | some r => some r
      | none => sshOwnerMatch (remoteUrl.data.drop 6)
    else if strStartsWith remoteUrl "ssh://" then sshOwnerMatch (remoteUrl.data.drop 6)
    else none
  match sshMatch with
  | some r => String.mk (lazyDotGit r)
  | none =>
    match
      (if strStartsWith remoteUrl "https://" then httpsOwnerMatch (remoteUrl.data.drop 8)
       else if strStartsWith remoteUrl "http://" then httpsOwnerMatch (remoteUrl.data.drop 7)
       else none) with
    | some r => String.mk (lazyDotGit r)
    | none => ""

/-- Embeds `extractOwner` (part_003 lines 575–609): take the captured
`pathPart` (the `if (!pathPart)` guard is the emptiness test), split it on
`/`, drop empty segments, and keep all but the last segment — the dropped
last segment is the repository name; a single segment stands for itself and
no segments give `"unknown"`. -/
def extractOwner (remoteUrl : String) : String :=
  let pathPart := ownerPathPart remoteUrl
  if pathPart = "" then "unknown"
  else
    let segments := (splitChar '/' pathPart).filter (fun s => s ≠ "")
    match segments with
    | [] => "unknown"
    | [seg] => seg
    | _ => String.intercalate "/" segments.dropLast

/-- Owner-path segments of a remote URL, as computed inside `getOwnerNodes`
(part_003 line 497): the classified owner path split on `/` with empty
segments dropped. -/
def ownerSegments (remoteUrl : String) : List String :=
  (splitChar '/' (extractOwner remoteUrl)).filter (fun s => s ≠ "")

/- ## Tree nodes (`views/treeNodes.ts`, part_003 lines 1–282) -/

/-- Embeds `vscode.TreeItemCollapsibleState`. -/
inductive CollapsibleState where
  | none
  | collapsed
  | expanded
deriving DecidableEq, Repr

/-- Embeds the helper `containsCurrentWorkspace` (part_003 lines 7–20): false
for a falsy workspace path, else an exact path match against a repository root
or any of its worktree paths. -/
def containsCurrentWorkspace (repositories : List RepositoryInfo)
    (currentWorkspacePath : Option String) : Bool :=
  match currentWorkspacePath with
  | Option.none => false
  | some p =>
    if p == "" then false
    else
      repositories.any fun repo =>
        repo.path == p || repo.worktrees.any fun wt => wt.path == p

/-- Data of a `DomainNode` (part_003 lines 40–62). -/
structure DomainNodeData where
  domain : String
  repositories : List RepositoryInfo
  collapsibleState : CollapsibleState
deriving DecidableEq, Repr

/-- Embeds the `DomainNode` constructor: expanded exactly when the node's
repositories contain the current workspace. -/
def mkDomainNode (domain : String) (repositories : List RepositoryInfo)
    (currentWorkspacePath : Option String) : DomainNodeData :=
  { domain := domain
    repositories := repositories
    collapsibleState :=
      if containsCurrentWorkspace repositories currentWorkspacePath then .expanded
      else .collapsed }

/-- Data of a `LocalGroupNode` (part_003 lines 172–184). -/
structure LocalGroupNodeData where
  repositories : List RepositoryInfo
  collapsibleState : CollapsibleState
deriving DecidableEq, Repr

/-- Embeds the `LocalGroupNode` constructor: its collapsible state is
unconditionally `Expanded` (part_003 line 176). -/
def mkLocalGroupNode (repositories : List RepositoryInfo) : LocalGroupNodeData :=
  { repositories := repositories, collapsibleState := .expanded }

/-- Data of a `RepositoryNode` (part_003 lines 186–236): `isCurrentlyOpen` is
the truthiness of `currentWorkspacePath && (exact root match || some worktree
path match)` and drives the `repo-selected` icon and the `repositoryOpen`
context value. -/
structure RepositoryNodeData where
  repository : RepositoryInfo
  collapsibleState : CollapsibleState
  isCurrentlyOpen : Bool
deriving DecidableEq, Repr

/-- Embeds the `RepositoryNode` constructor. -/
def mkRepositoryNode (repository : RepositoryInfo) (currentWorkspacePath : Option String) :
    RepositoryNodeData :=
  let hasWorktrees := repository.worktrees.length > 1
  let isCurrentlyOpen :=
    strTruthy currentWorkspacePath &&
      (currentWorkspacePath.getD "" == repository.path ||
        repository.worktrees.any fun wt => wt.path == currentWorkspacePath.getD "")
  { repository := repository
    collapsibleState :=
      if hasWorktrees then
        if isCurrentlyOpen then .expanded else .collapsed
      else .none
    isCurrentlyOpen := isCurrentlyOpen }

/-- Data of a `WorktreeNode` (part_003 lines 238–274): `isCurrentlyOpen` is
`currentWorkspacePath === worktree.path` (no truthiness involved) and drives
the `git-branch` icon; a worktree node is never collapsible. -/
structure WorktreeNodeData where
  worktree : WorktreeInfo
  collapsibleState : CollapsibleState
  isCurrentlyOpen : Bool
deriving DecidableEq, Repr

/-- Embeds the `WorktreeNode` constructor. -/
def mkWorktreeNode (worktree : WorktreeInfo) (currentWorkspacePath : Option String) :
    WorktreeNodeData :=
  { worktree := worktree
    collapsibleState := .none
    isCurrentlyOpen := currentWorkspacePath == some worktree.path }

mutual
/-- Embeds an `OwnerNode` (part_003 lines 64–170): label (`owner`), `fullPath`,
its own repository bucket, the `domain`, the current collapsible state and the
insertion-ordered `children` map.  In the tree built by `getOwnerNodes` the
children map only ever holds `OwnerNode`s (`addChild` is only reached with a
freshly created `OwnerNode` there), so the `RepositoryNode` alternative of the
map's value type — and the owner-before-repository branches of the
`getChildren` comparator — are dead code and not modelled. -/
inductive OwnerTree where
  | mk (owner : String) (fullPath : String) (repositories : List RepositoryInfo)
      (domain : Option String) (collapsibleState : CollapsibleState)
      (children : OwnerChildren)
deriving DecidableEq

/-- Insertion-ordered children map `Map<string, OwnerNode>` of an `OwnerNode`. -/
inductive OwnerChildren where
  | nil
  | cons (key : String) (child : OwnerTree) (rest : OwnerChildren)
deriving DecidableEq
end

/-- Label of an owner node. -/
def OwnerTree.owner : OwnerTree → String
  | .mk o _ _ _ _ _ => o

/-- Full `/`-joined owner path of an owner node. -/
def OwnerTree.fullPath : OwnerTree → String
  | .mk _ fp _ _ _ _ => fp

/-- Repository bucket of an owner node. -/
def OwnerTree.repositories : OwnerTree → List RepositoryInfo
  | .mk _ _ reps _ _ _ => reps

/-- Collapsible state of an owner node. -/
def OwnerTree.collapsibleState : OwnerTree → CollapsibleState
  | .mk _ _ _ _ st _ => st

/-- Children map of an owner node. -/
def OwnerTree.children : OwnerTree → OwnerChildren
  | .mk _ _ _ _ _ ch => ch

/-- Children map as an association list in insertion order. -/
def OwnerChildren.toList : OwnerChildren → List (String × OwnerTree)
  | .nil => []
  | .cons k c rest => (k, c) :: rest.toList

/-- Embeds `children.get(segment)` (JavaScript `Map.get`). -/
def OwnerChildren.get? : OwnerChildren → String → Option OwnerTree
  | .nil, _ => Option.none
  | .cons k c rest, key => if k == key then some c else rest.get? key

/-- Embeds `children.set(name, node)` (`OwnerNode.addChild`): replace an
existing key in place, else append at the end, as JavaScript `Map.set` does. -/
def OwnerChildren.set : OwnerChildren → String → OwnerTree → OwnerChildren
  | .nil, key, v => .cons key v .nil
  | .cons k c rest, key, v =>
    if k == key then .cons key v rest else .cons k c (rest.set key v)

/-- Embeds the `OwnerNode` constructor (part_003 lines 64–93): expanded exactly
when the repositories passed to the constructor contain the current workspace
(in `getOwnerNodes` that list is always `[]`, so fresh nodes are collapsed),
with an empty children map. -/
def mkOwnerNode (owner fullPath : String) (repositories : List RepositoryInfo)
    (domain : Option String) (currentWorkspacePath : Option String) : OwnerTree :=
  .mk owner fullPath repositories domain
    (if containsCurrentWorkspace repositories currentWorkspacePath then .expanded
     else .collapsed)
    .nil

mutual
/-- Embeds `OwnerNode.containsCurrentWorkspaceRecursive` (part_003
lines 117–142): the node's own bucket, then every child recursively. -/
def containsRecursive (currentWorkspacePath : String) : OwnerTree → Bool
  | .mk _ _ reps _ _ ch =>
    containsCurrentWorkspace reps (some currentWorkspacePath) ||
      containsRecursiveChildren currentWorkspacePath ch

/-- Children part of `containsCurrentWorkspaceRecursive` (every child of the
built tree is an `OwnerNode`, so only the recursive branch is live). -/
def containsRecursiveChildren (currentWorkspacePath : String) : OwnerChildren → Bool
  | .nil => false
  | .cons _ c rest =>
    containsRecursive currentWorkspacePath c ||
      containsRecursiveChildren currentWorkspacePath rest
end

mutual
/-- Embeds `OwnerNode.updateExpansionState` (part_003 lines 99–115): a no-op on
a falsy workspace path; otherwise the node becomes expanded when it transitively
contains the current workspace (keeping its state otherwise) and every child is
updated recursively. -/
def updateExpansionState (currentWorkspacePath : Option String) : OwnerTree → OwnerTree
  | .mk o fp reps dom st ch =>
    if !strTruthy currentWorkspacePath then .mk o fp reps dom st ch
    else
      let st' :=
        if containsRecursive (currentWorkspacePath.getD "") (.mk o fp reps dom st ch) then
          CollapsibleState.expanded
        else st
      .mk o fp reps dom st' (updateExpansionChildren currentWorkspacePath ch)

/-- Recursion of `updateExpansionState` over the children map. -/
def updateExpansionChildren (currentWorkspacePath : Option String) :
    OwnerChildren → OwnerChildren
  | .nil => .nil
  | .cons k c rest =>
    .cons k (updateExpansionState currentWorkspacePath c)
      (updateExpansionChildren currentWorkspacePath rest)
end

/-- Order in which `OwnerNode.getChildren` sorts sibling owner nodes:
`a.owner.localeCompare(b.owner) <= 0`, modelled as code-point order on the
character lists (the default-locale collation agrees with code-point order on
the lower-case ASCII owner names this development uses). -/
def ownerOrder (a b : OwnerTree) : Prop := a.owner.data ≤ b.owner.data

instance : DecidableRel ownerOrder := fun a b =>
  inferInstanceAs (Decidable (a.owner.data ≤ b.owner.data))

/-- Rendered child of an owner node: a nested owner node or a repository leaf. -/
inductive TreeChild where
  | ownerChild (node : OwnerTree)
  | repoChild (node : RepositoryNodeData)
deriving DecidableEq

/-- Embeds `OwnerNode.getChildren` (part_003 lines 144–165): when the children
map is non-empty, its values sorted by owner name (JavaScript's stable
`Array.prototype.sort`, modelled by insertion sort, which computes the same
list for this consistent comparator) — the node's own repository bucket is not
returned; when the map is empty, the bucket rendered as repository leaves. -/
def ownerGetChildren (currentWorkspacePath : Option String) (t : OwnerTree) :
    List TreeChild :=
  match t with
  | .mk _ _ reps _ _ OwnerChildren.nil =>
    reps.map fun repo => .repoChild (mkRepositoryNode repo currentWorkspacePath)
  | .mk _ _ _ _ _ ch =>
    (List.insertionSort ownerOrder (ch.toList.map Prod.snd)).map .ownerChild

/- ## Tree data provider
(`views/repositoryTreeDataProvider.ts`, part_003 lines 283–618) -/

/-- Root-level node of the tree view. -/
inductive RootNode where
  | emptyState
  | domainNode (node : DomainNodeData)
  | localGroup (node : LocalGroupNodeData)
deriving DecidableEq, Repr

/-- Embeds the guard `repo.remotes.length > 0 && repo.remotes[0].fetchUrl`
(part_003 line 436 and lines 492–494): the first remote's fetch URL when it is
truthy (present and non-empty), else `none`. -/
def firstFetchUrl? (repo : RepositoryInfo) : Option String :=
  match repo.remotes with
  | [] => Option.none
  | r :: _ => if strTruthy r.fetchUrl then r.fetchUrl else Option.none

/-- Embeds pushing into `domainMap` (part_003 lines 443–451) with JavaScript
`Map` insertion order: append to the bucket of an existing key in place, else
append a new singleton bucket at the end. -/
def mapPush (m : List (String × List RepositoryInfo)) (k : String) (r : RepositoryInfo) :
    List (String × List RepositoryInfo) :=
  match m with
  | [] => [(k, [r])]
  | (k', l) :: rest =>
    if k' == k then (k', l ++ [r]) :: rest else (k', l) :: mapPush rest k r

/-- The `domainMap` of `getRemoteViewRootNodes`: repositories with a truthy
first fetch URL grouped by extracted domain, in first-occurrence order. -/
def groupByDomain (repos : List RepositoryInfo) : List (String × List RepositoryInfo) :=
  repos.foldl (fun m repo => mapPush m (extractDomain ((firstFetchUrl? repo).getD "")) repo) []

/-- Embeds `getRemoteViewRootNodes` (part_003 lines 427–483): the empty state
for an empty repository list; otherwise one `DomainNode` per domain in
`domainMap` iteration order, followed by a `LocalGroupNode` when repositories
without a (truthy) remote fetch URL exist.  The repository-count decorations
(`decorationProvider.setCount`) are display-only and not modelled. -/
def getRemoteViewRootNodes (repositories : List RepositoryInfo)
    (currentWorkspacePath : Option String) : List RootNode :=
  if repositories.isEmpty then [RootNode.emptyState]
  else
    let reposWithRemote := repositories.filter fun r => (firstFetchUrl? r).isSome
    let reposWithoutRemote := repositories.filter fun r => (firstFetchUrl? r).isNone
    let nodes := (groupByDomain reposWithRemote).map fun kv =>
      RootNode.domainNode (mkDomainNode kv.1 kv.2 currentWorkspacePath)
    if reposWithoutRemote.isEmpty then nodes
    else nodes ++ [RootNode.localGroup (mkLocalGroupNode reposWithoutRemote)]

/-- Embeds the segment walk of `getOwnerNodes` (part_003 lines 503–529) for one
repository: descend from the node along the owner-path segments, extending
`fullPath`, creating missing owner nodes on demand (`Map.set` appends them),
and push the repository into the bucket of the deepest node reached. -/
def insertRepo (domain : String) (currentWorkspacePath : Option String)
    (repo : RepositoryInfo) : OwnerTree → List String → String → OwnerTree
  | .mk o fp reps dom st ch, [], _ => .mk o fp (reps ++ [repo]) dom st ch
  | .mk o fp reps dom st ch, seg :: rest, fullPathSoFar =>
    let fullPath := if fullPathSoFar == "" then seg else fullPathSoFar ++ "/" ++ seg
    let child :=
      match ch.get? seg with
      | some c => c
      | Option.none => mkOwnerNode seg fullPath [] (some domain) currentWorkspacePath
    .mk o fp reps dom st
      (ch.set seg (insertRepo domain currentWorkspacePath repo child rest fullPath))

/-- Embeds `getOwnerNodes` (part_003 lines 485–557): build the owner prefix
tree of one domain from the repositories' first fetch URLs, update the
expansion states, and return the root's rendered children.  The
`updateDescriptions` pass (lines 532–552) only feeds aggregated repository
counts to the file-decoration provider and is not modelled. -/
def getOwnerNodes (domain : String) (repositories : List RepositoryInfo)
    (currentWorkspacePath : Option String) : List TreeChild :=
  let root := mkOwnerNode "" "" [] (some domain) currentWorkspacePath
  let root := repositories.foldl
    (fun r repo =>
      match firstFetchUrl? repo with
      | Option.none => r
      | some url =>
        match ownerSegments url with
        | [] => r
        | segments => insertRepo domain currentWorkspacePath repo r segments "") root
  let root := updateExpansionState currentWorkspacePath root
  ownerGetChildren currentWorkspacePath root

/-- Order in which the `RepositoryNode` branch of the provider's `getChildren`
sorts secondary worktrees: `a.name.localeCompare(b.name) <= 0`, modelled as
code-point order on the character lists (see `ownerOrder`). -/
def worktreeOrder (a b : WorktreeInfo) : Prop := a.name.data ≤ b.name.data

instance : DecidableRel worktreeOrder := fun a b =>
  inferInstanceAs (Decidable (a.name.data ≤ b.name.data))

/-- Embeds the `RepositoryNode` branch of `RepositoryTreeDataProvider.getChildren`
(part_003 lines 412–422): when the repository has more than one worktree, its
non-main worktrees sorted by name (stable sort, see `ownerGetChildren`),
otherwise no children. -/
def repositoryNodeChildren (node : RepositoryNodeData)
    (currentWorkspacePath : Option String) : List WorktreeNodeData :=
  if node.repository.worktrees.length > 1 then
    (List.insertionSort worktreeOrder
        (node.repository.worktrees.filter fun wt => !wt.isMain)).map
      fun wt => mkWorktreeNode wt currentWorkspacePath
  else []

/-- Embeds the `LocalGroupNode` branch of the provider's `getChildren`
(part_003 lines 406–410). -/
def localGroupChildren (node : LocalGroupNodeData)
    (currentWorkspacePath : Option String) : List RepositoryNodeData :=
  node.repositories.map fun repo => mkRepositoryNode repo currentWorkspacePath

/-- Repositories rendered as leaves anywhere at or below an owner node when the
provider's `getChildren` dispatch is followed (`OwnerNode` children via
`OwnerNode.getChildren`, repository leaves collected); `fuel` bounds the
descent and every use picks it larger than the tree depth. -/
def renderedRepos : Nat → Option String → OwnerTree → List RepositoryInfo
  | 0, _, _ => []
  | fuel + 1, currentWorkspacePath, t =>
    (ownerGetChildren currentWorkspacePath t).foldr
      (fun c acc =>
        (match c with
          | .ownerChild t' => renderedRepos fuel currentWorkspacePath t'
          | .repoChild r => [r.repository]) ++ acc) []

/- ## Derived observations used by the theorems -/

mutual
/-- Every owner node of the tree is in its collapsed state. -/
def allCollapsed : OwnerTree → Bool
  | .mk _ _ _ _ st ch => (st == CollapsibleState.collapsed) && allCollapsedChildren ch

/-- Children part of `allCollapsed`. -/
def allCollapsedChildren : OwnerChildren → Bool
  | .nil => true
  | .cons _ c rest => allCollapsed c && allCollapsedChildren rest
end

/-- Owner nodes among a rendered children list. -/
def ownerChildNodes (cs : List TreeChild) : List OwnerTree :=
  cs.filterMap fun c =>
    match c with
    | .ownerChild t => some t
    | .repoChild _ => Option.none

/-- Repository leaves among a rendered children list. -/
def repoChildNodes (cs : List TreeChild) : List RepositoryNodeData :=
  cs.filterMap fun c =>
    match c with
    | .ownerChild _ => Option.none
    | .repoChild r => some r

/-- Bucket lookup in an association list of domain buckets (first entry wins,
like iterating a JavaScript `Map`). -/
def alookup (m : List (String × List RepositoryInfo)) (d : String) : List RepositoryInfo :=
  (m.findSome? fun kv => if kv.1 == d then some kv.2 else Option.none).getD []

/-- Repository bucket of the domain node for `d` among root nodes ( `[]` when
there is none). -/
def domainBucket (nodes : List RootNode) (d : String) : List RepositoryInfo :=
  (nodes.findSome? fun n =>
    match n with
    | .domainNode dn => if dn.domain == d then some dn.repositories else Option.none
    | _ => Option.none).getD []

/-- Whether a domain node for `d` occurs among root nodes. -/
def hasDomain (nodes : List RootNode) (d : String) : Bool :=
  nodes.any fun n =>
    match n with
    | .domainNode dn => dn.domain == d
    | _ => false

/-- Repositories of the local (no-remote) group among root nodes (`[]` when
there is none). -/
def localRepos (nodes : List RootNode) : List RepositoryInfo :=
  (nodes.findSome? fun n =>
    match n with
    | .localGroup l => some l.repositories
    | _ => Option.none).getD []

/-- Domain key used by `getRemoteViewRootNodes` for a repository with a remote. -/
def repoDomainKey (repo : RepositoryInfo) : String :=
  extractDomain ((firstFetchUrl? repo).getD "")

/- ## Concrete fixtures -/

/-- The porcelain text of the specification's worktree-parser example. -/
def c2text : String :=
  "worktree /r\nHEAD abc123\nbranch refs/heads/main\n\nworktree /r-wt\nHEAD def456\ndetached\n\n"

/-- Porcelain text with a single worktree block carrying a `HEAD` line. -/
def c3text : String := "worktree /x\nHEAD 0123456789abcdef\n\n"

/-- A scan root containing one directory `sub` whose `.git` entry is a regular
file (a submodule-style or linked-worktree `.git` link). -/
def subFileTree : FSEntries :=
  .cons (.dir "sub" (.cons (.file ".git") .nil)) .nil

/-- The single main worktree of a repository rooted at `p` named `n`. -/
def soleWorktree (p n : String) : WorktreeInfo :=
  { name := n, path := p, branch := some "main", isMain := true, isDetached := false }

/-- Repository fixture with one remote and a single main worktree. -/
def remoteRepo (p n url : String) : RepositoryInfo :=
  { path := p
    name := n
    remotes := [{ name := "origin", fetchUrl := some url }]
    currentBranch := some "main"
    isSubmodule := false
    worktrees := [soleWorktree p n]
    lastScanned := "" }

/-- The gitlab URL of the specification's classification example. -/
def gitlabUrl : String := "https://gitlab.com/org/team/proj.git"

/-- Repository whose first remote fetch URL is `gitlabUrl`. -/
def repoProj : RepositoryInfo := remoteRepo "/p/proj" "proj" gitlabUrl

/-- Repository on domain `a.com`. -/
def repoA : RepositoryInfo := remoteRepo "/a" "a" "https://a.com/x/a.git"

/-- Repository on domain `b.com`. -/
def repoB : RepositoryInfo := remoteRepo "/b" "b" "https://b.com/x/b.git"

/-- Repository without any remote. -/
def repoLocal : RepositoryInfo :=
  { path := "/l"
    name := "l"
    remotes := []
    currentBranch := some "main"
    isSubmodule := false
    worktrees := [soleWorktree "/l" "l"]
    lastScanned := "" }

/-- Repository at `/r` with its main worktree and a secondary worktree at
`/r-wt` (the specification's workspace-tracking example). -/
def repoR : RepositoryInfo :=
  { path := "/r"
    name := "r"
    remotes := [{ name := "origin", fetchUrl := some "https://a.com/x/r.git" }]
    currentBranch := some "main"
    isSubmodule := false
    worktrees :=
      [{ name := "r", path := "/r", branch := some "main", isMain := true, isDetached := false },
       { name := "r-wt", path := "/r-wt", branch := some "f", isMain := false, isDetached := false }]
    lastScanned := "" }

/-- Repository whose owner path `org` is a proper prefix of `repoDeep`'s. -/
def repoShallow : RepositoryInfo := remoteRepo "/s" "shallow" "https://h.com/org/shallow.git"

/-- Repository with owner path `org/team` on the same domain as `repoShallow`. -/
def repoDeep : RepositoryInfo := remoteRepo "/d" "deep" "https://h.com/org/team/deep.git"

mutual
/-- Truncation of a directory entry at `k` remaining levels: a directory's
contents are dropped entirely once the level budget is exhausted; files and
symlinks are untouched.  Used to state that the scanner never looks below its
depth ceiling. -/
def pruneEntry : Nat → FSEntry → FSEntry
  | _, .file n => .file n
  | _, .symlink n => .symlink n
  | 0, .dir n _ => .dir n .nil
  | k + 1, .dir n sub => .dir n (pruneEntries k sub)

/-- Truncation of a directory listing at `k` remaining levels. -/
def pruneEntries : Nat → FSEntries → FSEntries
  | _, .nil => .nil
  | k, .cons e rest => .cons (pruneEntry k e) (pruneEntries k rest)
end

/-- Contents a truncated directory keeps: nothing at level 0, the truncated
subtree otherwise. -/
def pruneSub : Nat → FSEntries → FSEntries
  | 0, _ => .nil
  | k + 1, sub => pruneEntries k sub

/-- Totality of the owner-node sort order. -/
instance : IsTotal OwnerTree ownerOrder :=
  ⟨fun a b => le_total a.owner.data b.owner.data⟩

/-- Transitivity of the owner-node sort order. -/
instance : IsTrans OwnerTree ownerOrder :=
  ⟨fun _ _ _ hab hbc => le_trans hab hbc⟩

/-- Totality of the worktree sort order. -/
instance : IsTotal WorktreeInfo worktreeOrder :=
  ⟨fun a b => le_total a.name.data b.name.data⟩

/-- Transitivity of the worktree sort order. -/
instance : IsTrans WorktreeInfo worktreeOrder :=
  ⟨fun _ _ _ hab hbc => le_trans hab hbc⟩

/-- Repositories rendered as leaves below a list of rendered children
(the children-list form of `renderedRepos`). -/
def renderedAtChildren (fuel : Nat) (currentWorkspacePath : Option String)
    (cs : List TreeChild) : List RepositoryInfo :=
  cs.foldr
    (fun c acc =>
      (match c with
        | .ownerChild t => renderedRepos fuel currentWorkspacePath t
        | .repoChild r => [r.repository]) ++ acc) []

/- ## Helper lemmas -/

theorem parse_commitMessage_none (lines : List String) :
    ∀ cur : WorktreeDraft, cur.commitMessage = Option.none →
      ∀ w ∈ parseWorktreeLines lines cur, w.commitMessage = Option.none := by
  induction lines with
  | nil =>
    intro cur h w hw
    simp only [parseWorktreeLines] at hw
    split at hw
    · simp only [List.mem_singleton] at hw
      subst hw
      simpa [WorktreeDraft.cast] using h
    · simp at hw
  | cons line rest ih =>
    intro cur h w hw
    simp only [parseWorktreeLines] at hw
    split_ifs at hw <;>
      (try simp only [List.nil_append, List.cons_append, List.singleton_append,
        List.mem_append, List.mem_cons, List.mem_singleton] at hw) <;>
      first
      | exact ih _ h w hw
      | exact ih _ rfl w hw
      | (refine ih _ ?_ w hw; simpa using h)
      | (rcases hw with hw | hw
         · subst hw; simpa [WorktreeDraft.cast] using h
         · first
           | exact ih _ h w hw
           | exact ih _ rfl w hw)

/- ## Claim C2 -/

/-- Claim C2, counterexample: on the porcelain text of the specification's
example, the detached worktree record does NOT satisfy "isDetached and no
branch set" — the `HEAD` line left a provisional `branch` value behind, so the
claimed invariant `branch` XOR (`isDetached` and no `branch`) fails. -/
theorem c2_detached_branch_counterexample :
    ¬ (∀ w ∈ extractWorktrees (fun _ => Option.none) "/r" c2text,
        w.isDetached = true → w.branch = Option.none) := by decide

/-- Claim C2 (amended): parsing the example porcelain text yields exactly two
records; the first has path `/r`, branch `main` (the `branch` line overriding
the provisional `HEAD` value) and is not detached, while the second has path
`/r-wt`, is detached, and KEEPS the provisional branch value `def456` taken
from its `HEAD` line (the commit hashes are likewise the provisional `HEAD`
prefixes when the per-worktree log lookup fails). -/
theorem c2_worktree_parse_example :
    extractWorktrees (fun _ => Option.none) "/r" c2text =
      [{ path := "/r", name := "r", branch := some "main", isMain := true,
         isDetached := false, commitHash := some "abc123",
         commitMessage := Option.none },
       { path := "/r-wt", name := "r-wt", branch := some "def456", isMain := false,
         isDetached := true, commitHash := some "def456",
         commitMessage := Option.none }] := by decide

/- ## Claim C3 -/

/-- Claim C3, counterexample: a worktree whose commit lookup fails is kept, but
its `commitHash` does not remain unset — it keeps the provisional 8-character
prefix of the `HEAD` line value. -/
theorem c3_commitHash_counterexample :
    ¬ (∀ w ∈ extractWorktrees (fun _ => Option.none) "/x" c3text,
        w.commitHash = Option.none) := by decide

/-- Claim C3 (amended): when every per-worktree commit-metadata lookup fails,
each parsed worktree record is still kept — the output is exactly the parsed
block list with only `name` and `isMain` rewritten — and `commitMessage`
remains unset; `commitHash`, however, keeps whatever provisional value the
`HEAD` line installed. -/
theorem c3_failed_lookup_keeps_records :
    (∀ (root text : String),
      extractWorktrees (fun _ => Option.none) root text =
        (parseWorktreeLines (splitChar '\n' text) {}).map fun wt =>
          { wt with
            name := pathBasename wt.path
            isMain := pathNormalize wt.path == pathNormalize root })
    ∧ ∀ (root text : String) w, w ∈ extractWorktrees (fun _ => Option.none) root text →
        w.commitMessage = Option.none := by
  constructor
  · intro root text
    rfl
  · intro root text w hw
    simp only [extractWorktrees, List.mem_map] at hw
    obtain ⟨wt, hmem, hw⟩ := hw
    have hmsg := parse_commitMessage_none (splitChar '\n' text) {} rfl wt hmem
    subst hw
    simpa [finalizeWorktree, applyCommitInfo] using hmsg

/-- Claim C3, witness for the amended theorem at a concrete input: the block of
`c3text` is kept with its provisional commit hash and no commit message. -/
theorem c3_failed_lookup_witness :
    ({ path := "/x", name := "x", branch := some "0123456789abcdef", isMain := true,
       isDetached := false, commitHash := some "01234567",
       commitMessage := Option.none } : WorktreeInfo).commitMessage = Option.none :=
  c3_failed_lookup_keeps_records.2 "/x" c3text _ (by decide)

/- ## Claim C1 -/

theorem scanChildren_submodule (ign : String → Bool) :
    ∀ (dirPath : String) (es : FSEntries) (depth : Nat) (seen : List String),
      ∀ r ∈ (scanChildren ign mkExtract dirPath es depth seen).2, r.isSubmodule = false := by
  intro dirPath es depth seen
  induction dirPath, es, depth, seen using scanChildren.induct ign mkExtract with
  | case1 x x1 seen => simp [scanChildren]
  | case2 dirPath name sub rest depth seen h ih =>
    simp only [scanChildren, h, if_true]
    exact ih
  | case3 dirPath name sub rest depth seen h subPath r1 ihSub ihRest =>
    intro r hr
    simp only [scanChildren, h, if_false, Bool.false_eq_true] at hr
    simp only [List.mem_append] at hr
    rcases hr with hr | hr
    · split at hr
      · simp at hr
      · split at hr
        · simp at hr
        · split at hr
          next gitEntry heq =>
            split at hr
            · simp at hr
            · split at hr
              · simp at hr
              · simp only [mkExtract, List.mem_singleton] at hr
                subst hr
                next hfile _ =>
                  simp [Bool.not_eq_true] at hfile
                  simp [hfile]
          next heq => exact ihSub r hr
    · exact ihRest r hr
  | case4 dirPath head rest depth seen h ih =>
    intro r hr
    rcases head with n | n | ⟨n, sub⟩
    · simp only [scanChildren] at hr
      exact ih r hr
    · simp only [scanChildren] at hr
      exact ih r hr
    · exact absurd rfl (h n sub)

/-- Claim C1, counterexample: scanning a root whose subdirectory `sub` holds a
regular-file `.git` entry yields NO repository record at all — in particular no
record with `isSubmodule = true` — even though the metadata extraction is
modelled as always succeeding. -/
theorem c1_git_file_counterexample :
    scanPath noIgnore mkExtract "/base" subFileTree = [] ∧
    ¬ ∃ r ∈ scanPath noIgnore mkExtract "/base" subFileTree, r.isSubmodule = true := by
  decide

/-- Claim C1 (amended): a scanned directory whose `.git` entry is a regular
file is a boundary the scanner does not cross, but it is NOT handed to
metadata extraction: the scan of such a directory contributes no record and
leaves the seen-set unchanged.  Consequently (second conjunct) every record a
scan returns went through extraction with `isGitFile = false`, so its
`isSubmodule` field is `false`. -/
theorem c1_git_file_is_skipped :
    (∀ (ign : String → Bool) (extract : String → Bool → Option RepositoryInfo)
        (dirPath : String) (entries : FSEntries) (depth : Nat) (seen : List String)
        (gitEntry : FSEntry),
      entries.find? (fun e => e.name == ".git") = some gitEntry →
      gitEntry.isFile = true →
      scanDir ign extract dirPath entries depth seen = (seen, []))
    ∧ ∀ (ign : String → Bool) (basePath : String) (rootEntries : FSEntries) r,
        r ∈ scanPath ign mkExtract basePath rootEntries → r.isSubmodule = false := by
  constructor
  · intro ign extract dirPath entries depth seen gitEntry hfind hfile
    simp only [scanDir, hfind, hfile, if_true]
    split_ifs <;> rfl
  · intro ign basePath rootEntries r hr
    simp only [scanPath, scanDir] at hr
    split at hr
    · simp at hr
    · split at hr
      · simp at hr
      · split at hr
        next gitEntry heq =>
          split at hr
          · simp at hr
          · split at hr
            · simp at hr
            · simp only [mkExtract, List.mem_singleton] at hr
              subst hr
              next hfile _ =>
                simp [Bool.not_eq_true] at hfile
                simp [hfile]
        next heq => exact scanChildren_submodule ign basePath rootEntries 0 [] r hr

/-- Claim C1, witness for the amended theorem at a concrete input: scanning the
`.git`-file directory `sub` itself returns the seen-set unchanged and no
records, and the root scan over `subFileTree` yields no record with
`isSubmodule = true` (vacuously, the scan being empty). -/
theorem c1_git_file_witness :
    scanDir noIgnore mkExtract "/base/sub" (.cons (.file ".git") .nil) 1 [] = ([], []) :=
  c1_git_file_is_skipped.1 noIgnore mkExtract "/base/sub" (.cons (.file ".git") .nil) 1 []
    (.file ".git") (by decide) (by decide)

/- ## Claim C7 -/

theorem deepTree_find_none (n : Nat) :
    FSEntries.find? (fun e => e.name == ".git") (deepTree n) = Option.none := by
  cases n <;> simp [deepTree, FSEntries.find?, FSEntry.name]

theorem scanChildren_deepTree (n : Nat) :
    ∀ (dirPath : String) (depth : Nat),
      (scanChildren noIgnore mkExtract dirPath (deepTree n) depth []).2.length
        = if depth + n + 1 ≤ MAX_DEPTH then 1 else 0 := by
  induction n with
  | zero =>
    intro dirPath depth
    have hskip : SKIP_DIRECTORIES.contains "repo" = false := by decide
    show (scanChildren noIgnore mkExtract dirPath
      (FSEntries.cons
        (FSEntry.dir "repo" (FSEntries.cons (FSEntry.dir ".git" FSEntries.nil) FSEntries.nil))
        FSEntries.nil) depth []).2.length = _
    simp only [scanChildren, hskip, Bool.false_eq_true, if_false, noIgnore, FSEntries.find?,
      FSEntry.name, FSEntry.isFile, mkExtract, List.contains_nil, beq_self_eq_true, if_true]
    by_cases hd : depth + 1 > MAX_DEPTH
    · rw [if_pos hd]
      simp only [scanChildren, List.append_nil]
      simp only [MAX_DEPTH] at hd ⊢
      rw [if_neg (by omega)]
      rfl
    · rw [if_neg hd]
      simp only [scanChildren, List.append_nil]
      simp only [MAX_DEPTH] at hd ⊢
      rw [if_pos (by omega)]
      rfl
  | succ n ih =>
    intro dirPath depth
    have hskip : SKIP_DIRECTORIES.contains "d" = false := by decide
    show (scanChildren noIgnore mkExtract dirPath
      (FSEntries.cons (FSEntry.dir "d" (deepTree n)) FSEntries.nil) depth []).2.length = _
    simp only [scanChildren, hskip, Bool.false_eq_true, if_false, noIgnore, deepTree_find_none]
    by_cases hd : depth + 1 > MAX_DEPTH
    · rw [if_pos hd]
      simp only [scanChildren, List.append_nil, List.length_nil]
      simp only [MAX_DEPTH] at hd ⊢
      rw [if_neg (by omega)]
    · rw [if_neg hd]
      simp only [scanChildren, List.append_nil]
      have := ih (pathJoin dirPath "d") (depth + 1)
      rw [this]
      simp only [MAX_DEPTH] at hd ⊢
      split_ifs <;> first | rfl | omega

theorem pruneEntry_dir (k : Nat) (n : String) (sub : FSEntries) :
    pruneEntry k (.dir n sub) = .dir n (pruneSub k sub) := by
  cases k <;> rfl

theorem pruneEntry_name (k : Nat) (e : FSEntry) : (pruneEntry k e).name = e.name := by
  cases e <;> cases k <;> rfl

theorem pruneEntry_isFile (k : Nat) (e : FSEntry) : (pruneEntry k e).isFile = e.isFile := by
  cases e <;> cases k <;> rfl

theorem pruneEntry_file (k : Nat) (n : String) : pruneEntry k (.file n) = .file n := by
  cases k <;> rfl

theorem pruneEntry_symlink (k : Nat) (n : String) : pruneEntry k (.symlink n) = .symlink n := by
  cases k <;> rfl

theorem find?_prune (k : Nat) : ∀ es : FSEntries,
    FSEntries.find? (fun e => e.name == ".git") (pruneEntries k es)
      = (FSEntries.find? (fun e => e.name == ".git") es).map (pruneEntry k)
  | .nil => rfl
  | .cons e rest => by
    simp only [pruneEntries, FSEntries.find?, pruneEntry_name]
    split
    · rfl
    · exact find?_prune k rest

theorem scanChildren_cons_dir (ign : String → Bool)
    (extract : String → Bool → Option RepositoryInfo) (dirPath name : String)
    (sub rest : FSEntries) (depth : Nat) (seen : List String)
    (h : SKIP_DIRECTORIES.contains name = false) :
    scanChildren ign extract dirPath (.cons (.dir name sub) rest) depth seen
      = ((scanChildren ign extract dirPath rest depth
            (scanDir ign extract (pathJoin dirPath name) sub (depth + 1) seen).1).1,
         (scanDir ign extract (pathJoin dirPath name) sub (depth + 1) seen).2
           ++ (scanChildren ign extract dirPath rest depth
                (scanDir ign extract (pathJoin dirPath name) sub (depth + 1) seen).1).2) := by
  rw [scanChildren, scanDir, h]
  simp

theorem scan_prune (ign : String → Bool) (extract : String → Bool → Option RepositoryInfo) :
    ∀ (dirPath : String) (es : FSEntries) (depth : Nat) (seen : List String),
      (scanChildren ign extract dirPath (pruneEntries (MAX_DEPTH - depth) es) depth seen
          = scanChildren ign extract dirPath es depth seen) := by
  have H := scanChildren.induct ign extract
    (motive := fun dirPath es depth _ => ∀ seen,
      scanChildren ign extract dirPath (pruneEntries (MAX_DEPTH - depth) es) depth seen
        = scanChildren ign extract dirPath es depth seen)
  refine fun dirPath es depth seen => H ?_ ?_ ?_ ?_ dirPath es depth seen seen
  · intro x x1 _ s
    rfl
  · intro dirPath name sub rest depth _ h ih s
    simp only [pruneEntries, pruneEntry_dir]
    simp only [scanChildren, h, if_true]
    exact ih s
  · intro dirPath name sub rest depth _ h subPath r1 ihSub ihRest s
    have hb : SKIP_DIRECTORIES.contains name = false := by
      simpa using h
    simp only [pruneEntries, pruneEntry_dir]
    rw [scanChildren_cons_dir ign extract dirPath name (pruneSub (MAX_DEPTH - depth) sub)
        (pruneEntries (MAX_DEPTH - depth) rest) depth s hb,
      scanChildren_cons_dir ign extract dirPath name sub rest depth s hb]
    have hdir : scanDir ign extract (pathJoin dirPath name)
        (pruneSub (MAX_DEPTH - depth) sub) (depth + 1) s
        = scanDir ign extract (pathJoin dirPath name) sub (depth + 1) s := by
      by_cases hd : depth + 1 > MAX_DEPTH
      · simp only [scanDir]
        rw [if_pos hd, if_pos hd]
      · have hk : MAX_DEPTH - depth = (MAX_DEPTH - (depth + 1)) + 1 := by
          simp only [MAX_DEPTH] at hd ⊢
          omega
        rw [hk]
        show scanDir ign extract (pathJoin dirPath name)
          (pruneEntries (MAX_DEPTH - (depth + 1)) sub) (depth + 1) s = _
        simp only [scanDir, find?_prune]
        cases hfind : FSEntries.find? (fun e => e.name == ".git") sub with
        | none =>
          simp only [Option.map_none']
          rw [ihSub s]
        | some g =>
          simp only [Option.map_some']
          rw [pruneEntry_isFile]
    rw [hdir, ihRest]
  · intro dirPath head rest depth _ h ih s
    rcases head with n | n | ⟨n, sub⟩
    · simp only [pruneEntries, pruneEntry_file, scanChildren]
      exact ih s
    · simp only [pruneEntries, pruneEntry_symlink, scanChildren]
      exact ih s
    · exact absurd rfl (h n sub)

theorem scanPath_prune (ign : String → Bool) (extract : String → Bool → Option RepositoryInfo)
    (basePath : String) (rootEntries : FSEntries) :
    scanPath ign extract basePath (pruneEntries MAX_DEPTH rootEntries)
      = scanPath ign extract basePath rootEntries := by
  simp only [scanPath, scanDir, find?_prune]
  cases hfind : FSEntries.find? (fun e => e.name == ".git") rootEntries with
  | none =>
    simp only [Option.map_none']
    rw [if_neg (show ¬(0 > MAX_DEPTH) by decide), if_neg (show ¬(0 > MAX_DEPTH) by decide)]
    by_cases hi : ign basePath = true
    · rw [if_pos hi, if_pos hi]
    · have hsc := scan_prune ign extract basePath rootEntries 0 []
      rw [Nat.sub_zero] at hsc
      rw [if_neg hi, if_neg hi, hsc]
  | some g =>
    simp only [Option.map_some']
    rw [pruneEntry_isFile]

/-- Claim C7: the scanner never enters a directory deeper than the 10-level
ceiling: any call past the ceiling returns nothing, pruning silently (first
conjunct), and — for EVERY directory tree — truncating everything the ceiling
makes unreachable leaves the scan result unchanged, so no repository located
below the ceiling is ever returned (second conjunct).  On the canonical
depth-`n` chain `deepTree n`, whose only repository sits `n + 1` levels below
the scan root, the repository is returned exactly when its depth is within the
ceiling; in particular a repository at depth 11 is not returned while one at
depth 9 is. -/
theorem c7_depth_ceiling :
    (∀ (ign : String → Bool) (extract : String → Bool → Option RepositoryInfo)
        (dirPath : String) (entries : FSEntries) (depth : Nat) (seen : List String),
      depth > MAX_DEPTH → scanDir ign extract dirPath entries depth seen = (seen, []))
    ∧ (∀ (ign : String → Bool) (extract : String → Bool → Option RepositoryInfo)
        (basePath : String) (rootEntries : FSEntries),
      scanPath ign extract basePath (pruneEntries MAX_DEPTH rootEntries)
        = scanPath ign extract basePath rootEntries)
    ∧ (∀ n, (scanPath noIgnore mkExtract "/base" (deepTree n)).length
        = if n + 1 ≤ MAX_DEPTH then 1 else 0)
    ∧ (scanPath noIgnore mkExtract "/base" (deepTree 10)).length = 0
    ∧ (scanPath noIgnore mkExtract "/base" (deepTree 8)).length = 1 := by
  have hceil : ∀ (ign : String → Bool) (extract : String → Bool → Option RepositoryInfo)
      (dirPath : String) (entries : FSEntries) (depth : Nat) (seen : List String),
      depth > MAX_DEPTH → scanDir ign extract dirPath entries depth seen = (seen, []) := by
    intro ign extract dirPath entries depth seen h
    simp only [scanDir]
    rw [if_pos h]
  have hmain : ∀ n, (scanPath noIgnore mkExtract "/base" (deepTree n)).length
      = if n + 1 ≤ MAX_DEPTH then 1 else 0 := by
    intro n
    simp only [scanPath, scanDir, noIgnore, deepTree_find_none, Bool.false_eq_true, if_false]
    rw [if_neg (by decide)]
    simpa using scanChildren_deepTree n "/base" 0
  exact ⟨hceil, scanPath_prune, hmain, by rw [hmain 10]; decide, by rw [hmain 8]; decide⟩

/-- Claim C7, witness for the pruning conjunct at a concrete input: a call at
depth 11 returns no repositories and an unchanged seen-set. -/
theorem c7_depth_ceiling_witness :
    scanDir noIgnore mkExtract "/x" FSEntries.nil 11 [] = ([], []) :=
  c7_depth_ceiling.1 noIgnore mkExtract "/x" FSEntries.nil 11 [] (by decide)

/- ## Claim C8 -/

/-- Claim C8: classifying `https://gitlab.com/org/team/proj.git` yields domain
`gitlab.com`, captured path `org/team/proj` whose last segment — the
repository name — is `proj`, and owner path `org/team`; the built tree for
that domain has an `OwnerNode` `org` whose only child is the `OwnerNode` with
full path `org/team`, which holds the repository and renders it as a leaf. -/
theorem c8_gitlab_classification :
    extractDomain gitlabUrl = "gitlab.com"
    ∧ ownerPathPart gitlabUrl = "org/team/proj"
    ∧ extractOwner gitlabUrl = "org/team"
    ∧ ((splitChar '/' (ownerPathPart gitlabUrl)).filter (fun s => s ≠ "")).getLast?
        = some "proj"
    ∧ getOwnerNodes "gitlab.com" [repoProj] Option.none =
        [TreeChild.ownerChild
          (OwnerTree.mk "org" "org" [] (some "gitlab.com") CollapsibleState.collapsed
            (OwnerChildren.cons "team"
              (OwnerTree.mk "team" "org/team" [repoProj] (some "gitlab.com")
                CollapsibleState.collapsed OwnerChildren.nil)
              OwnerChildren.nil))]
    ∧ ownerGetChildren Option.none
        (OwnerTree.mk "team" "org/team" [repoProj] (some "gitlab.com")
          CollapsibleState.collapsed OwnerChildren.nil)
      = [TreeChild.repoChild (mkRepositoryNode repoProj Option.none)] := by
  decide

/- ## Claim C6 -/

/-- Claim C6, counterexample: with active path `/r-wt`, the repository node for
`/r` IS flagged current (`repo-selected` icon) although its own root path does
not equal the active path — the flag also fires on a worktree-path match, so
"current iff own root path equals active path" fails for repository nodes. -/
theorem c6_repo_current_counterexample :
    (mkRepositoryNode repoR (some "/r-wt")).isCurrentlyOpen = true
    ∧ repoR.path ≠ "/r-wt" := by decide

/-- Claim C6 (amended): a worktree node is flagged current exactly when its own
path equals the active path; a repository node is flagged current exactly when
the active path is truthy (defined and non-empty) and equals its root path OR
one of its worktree paths (both rules proved for every node and active path) —
with active path `/r-wt`, the repository node for `/r` is current and expanded,
and its rendered children consist of the single secondary worktree `/r-wt`,
flagged current. -/
theorem c6_current_flags :
    (∀ (wt : WorktreeInfo) (cwp : Option String),
      (mkWorktreeNode wt cwp).isCurrentlyOpen = true ↔ cwp = some wt.path)
    ∧ (∀ (repo : RepositoryInfo) (cwp : Option String),
      (mkRepositoryNode repo cwp).isCurrentlyOpen = true ↔
        strTruthy cwp = true
        ∧ (cwp = some repo.path ∨ ∃ wt ∈ repo.worktrees, cwp = some wt.path))
    ∧ (mkRepositoryNode repoR (some "/r-wt")).isCurrentlyOpen = true
    ∧ (mkRepositoryNode repoR (some "/r-wt")).collapsibleState = CollapsibleState.expanded
    ∧ (repositoryNodeChildren (mkRepositoryNode repoR (some "/r-wt")) (some "/r-wt")).map
        (fun w => (w.worktree.path, w.isCurrentlyOpen)) = [("/r-wt", true)] := by
  refine ⟨?_, ?_, by decide, by decide, by decide⟩
  · intro wt cwp
    simp [mkWorktreeNode]
  · intro repo cwp
    cases cwp with
    | none => simp [mkRepositoryNode, strTruthy]
    | some p =>
      by_cases hp : p = ""
      · subst hp
        simp [mkRepositoryNode, strTruthy]
      · simp only [mkRepositoryNode, strTruthy]
        simp [hp]
        constructor
        · rintro (h | ⟨wt, hwt, hpath⟩)
          · exact Or.inl h
          · exact Or.inr ⟨wt, hwt, hpath.symm⟩
        · rintro (h | ⟨wt, hwt, hpath⟩)
          · exact Or.inl h
          · exact Or.inr ⟨wt, hwt, hpath.symm⟩

/- ## Claim C5 -/

/-- Claim C5, counterexample: with no active workspace path, the built tree for
a single remote-less repository consists of the local group node, and that node
is in its EXPANDED state, not collapsed. -/
theorem c5_local_group_counterexample :
    getRemoteViewRootNodes [repoLocal] Option.none =
      [RootNode.localGroup
        { repositories := [repoLocal], collapsibleState := CollapsibleState.expanded }]
    ∧ CollapsibleState.expanded ≠ CollapsibleState.collapsed := by decide

theorem allCollapsedChildren_mem : ∀ (ch : OwnerChildren), allCollapsedChildren ch = true →
    ∀ kc ∈ ch.toList, allCollapsed kc.2 = true
  | .nil => by intro _ kc h; simp [OwnerChildren.toList] at h
  | .cons k c rest => by
    intro hall kc hmem
    simp only [allCollapsedChildren, Bool.and_eq_true] at hall
    simp only [OwnerChildren.toList, List.mem_cons] at hmem
    rcases hmem with rfl | hmem
    · exact hall.1
    · exact allCollapsedChildren_mem rest hall.2 kc hmem

theorem allCollapsedChildren_get : ∀ (ch : OwnerChildren), allCollapsedChildren ch = true →
    ∀ k c, ch.get? k = some c → allCollapsed c = true
  | .nil => by intro _ k c h; simp [OwnerChildren.get?] at h
  | .cons k' c' rest => by
    intro hall k c hget
    simp only [allCollapsedChildren, Bool.and_eq_true] at hall
    simp only [OwnerChildren.get?] at hget
    split at hget
    · cases hget; exact hall.1
    · exact allCollapsedChildren_get rest hall.2 k c hget

theorem allCollapsedChildren_set : ∀ (ch : OwnerChildren) (k : String) (v : OwnerTree),
    allCollapsedChildren ch = true → allCollapsed v = true →
    allCollapsedChildren (ch.set k v) = true
  | .nil => by
    intro k v _ hv
    simp [OwnerChildren.set, allCollapsedChildren, hv]
  | .cons k' c' rest => by
    intro k v hall hv
    simp only [allCollapsedChildren, Bool.and_eq_true] at hall
    simp only [OwnerChildren.set]
    split
    · simp [allCollapsedChildren, hv, hall.2]
    · simp [allCollapsedChildren, hall.1, allCollapsedChildren_set rest k v hall.2 hv]

theorem allCollapsed_mkOwnerNode (o f : String) (reps : List RepositoryInfo)
    (dom : Option String) :
    allCollapsed (mkOwnerNode o f reps dom Option.none) = true := by
  simp [mkOwnerNode, containsCurrentWorkspace, allCollapsed, allCollapsedChildren]

theorem insertRepo_allCollapsed (domain : String) (repo : RepositoryInfo) :
    ∀ (segs : List String) (t : OwnerTree) (fp : String),
      allCollapsed t = true →
      allCollapsed (insertRepo domain Option.none repo t segs fp) = true := by
  intro segs
  induction segs with
  | nil =>
    intro t fp h
    cases t with
    | mk o f reps dom st ch =>
      simpa [insertRepo, allCollapsed] using h
  | cons seg rest ih =>
    intro t fp h
    cases t with
    | mk o f reps dom st ch =>
      simp only [allCollapsed, Bool.and_eq_true] at h
      simp only [insertRepo, allCollapsed, Bool.and_eq_true]
      refine ⟨h.1, ?_⟩
      refine allCollapsedChildren_set ch seg _ h.2 ?_
      refine ih _ _ ?_
      split
      · next c heq => exact allCollapsedChildren_get ch h.2 seg c heq
      · exact allCollapsed_mkOwnerNode _ _ _ _

theorem updateExpansionState_none_id : ∀ t : OwnerTree, updateExpansionState Option.none t = t := by
  intro t
  cases t with
  | mk o f reps dom st ch => simp [updateExpansionState, strTruthy]

theorem ownerFold_allCollapsed (domain : String) :
    ∀ (repos : List RepositoryInfo) (t : OwnerTree), allCollapsed t = true →
      allCollapsed (repos.foldl
        (fun r repo =>
          match firstFetchUrl? repo with
          | Option.none => r
          | some url =>
            match ownerSegments url with
            | [] => r
            | segments => insertRepo domain Option.none repo r segments "") t) = true := by
  intro repos
  induction repos with
  | nil => intro t h; simpa using h
  | cons repo rest ih =>
    intro t h
    simp only [List.foldl_cons]
    refine ih _ ?_
    split
    · exact h
    · split
      · exact h
      · exact insertRepo_allCollapsed domain repo _ t "" h

theorem mkRepositoryNode_none (repo : RepositoryInfo) :
    (mkRepositoryNode repo Option.none).isCurrentlyOpen = false
    ∧ (mkRepositoryNode repo Option.none).collapsibleState ≠ CollapsibleState.expanded := by
  constructor
  · simp [mkRepositoryNode, strTruthy]
  · simp only [mkRepositoryNode, strTruthy]
    split_ifs <;> simp_all

theorem ownerGetChildren_collapsed :
    ∀ t : OwnerTree, allCollapsed t = true →
      ∀ c ∈ ownerGetChildren Option.none t,
        (∀ t', c = TreeChild.ownerChild t' → allCollapsed t' = true)
        ∧ ∀ r, c = TreeChild.repoChild r →
            r.isCurrentlyOpen = false ∧ r.collapsibleState ≠ CollapsibleState.expanded := by
  intro root hall c hmem
  cases root with
  | mk o f reps dom st ch =>
    cases ch with
    | nil =>
      simp only [ownerGetChildren, List.mem_map] at hmem
      obtain ⟨repo, _, hc⟩ := hmem
      subst hc
      refine ⟨fun t h => (nomatch h), fun r h => ?_⟩
      cases h
      exact mkRepositoryNode_none repo
    | cons k c0 rest =>
      simp only [ownerGetChildren, List.mem_map] at hmem
      obtain ⟨t, ht, hc⟩ := hmem
      subst hc
      refine ⟨fun t' h => ?_, fun r h => nomatch h⟩
      cases h
      rw [List.mem_insertionSort] at ht
      simp only [List.mem_map] at ht
      obtain ⟨kc, hkc, hsnd⟩ := ht
      have hch : allCollapsedChildren (OwnerChildren.cons k c0 rest) = true := by
        simp only [allCollapsed, Bool.and_eq_true] at hall
        exact hall.2
      have := allCollapsedChildren_mem (OwnerChildren.cons k c0 rest) hch kc hkc
      rwa [hsnd] at this

/-- Claim C5 (amended): with no active workspace path, every domain node is
collapsed; the trees built by `getOwnerNodes` consist entirely of collapsed
owner nodes, and rendering the children of any such all-collapsed owner node
yields only collapsed owner nodes and non-current, non-expanded repository
leaves; every worktree node is non-current and non-collapsible.  The one
exception is the local (no-remote) group node, which is always expanded, even
with no active path. -/
theorem c5_no_active_path_states :
    (∀ (repos : List RepositoryInfo) (node : RootNode),
      node ∈ getRemoteViewRootNodes repos Option.none →
        (∀ d, node = RootNode.domainNode d → d.collapsibleState = CollapsibleState.collapsed)
        ∧ ∀ l, node = RootNode.localGroup l → l.collapsibleState = CollapsibleState.expanded)
    ∧ (∀ (domain : String) (repos : List RepositoryInfo) (c : TreeChild),
      c ∈ getOwnerNodes domain repos Option.none →
        ∀ t, c = TreeChild.ownerChild t → allCollapsed t = true)
    ∧ (∀ t : OwnerTree, allCollapsed t = true →
      ∀ c ∈ ownerGetChildren Option.none t,
        (∀ t', c = TreeChild.ownerChild t' → allCollapsed t' = true)
        ∧ ∀ r, c = TreeChild.repoChild r →
            r.isCurrentlyOpen = false ∧ r.collapsibleState ≠ CollapsibleState.expanded)
    ∧ ∀ wt : WorktreeInfo,
        (mkWorktreeNode wt Option.none).isCurrentlyOpen = false
        ∧ (mkWorktreeNode wt Option.none).collapsibleState = CollapsibleState.none := by
  refine ⟨?_, ?_, ownerGetChildren_collapsed, ?_⟩
  · intro repos node hmem
    simp only [getRemoteViewRootNodes] at hmem
    split at hmem
    · simp only [List.mem_singleton] at hmem
      subst hmem
      exact ⟨fun d h => (nomatch h), fun l h => nomatch h⟩
    · have hdom : ∀ kv : String × List RepositoryInfo,
          node = RootNode.domainNode (mkDomainNode kv.1 kv.2 Option.none) →
          (∀ d, node = RootNode.domainNode d → d.collapsibleState = CollapsibleState.collapsed)
          ∧ ∀ l, node = RootNode.localGroup l →
              l.collapsibleState = CollapsibleState.expanded := by
        intro kv hn
        subst hn
        refine ⟨fun d h => ?_, fun l h => nomatch h⟩
        cases h
        simp [mkDomainNode, containsCurrentWorkspace]
      split at hmem
      · simp only [List.mem_map] at hmem
        obtain ⟨kv, _, hkv⟩ := hmem
        exact hdom kv hkv.symm
      · rcases List.mem_append.mp hmem with hm | hm
        · simp only [List.mem_map] at hm
          obtain ⟨kv, _, hkv⟩ := hm
          exact hdom kv hkv.symm
        · simp only [List.mem_singleton] at hm
          subst hm
          refine ⟨fun d h => (nomatch h), fun l h => ?_⟩
          cases h
          simp [mkLocalGroupNode]
  · intro domain repos c hmem
    simp only [getOwnerNodes, updateExpansionState_none_id] at hmem
    have hall : allCollapsed (repos.foldl
        (fun r repo =>
          match firstFetchUrl? repo with
          | Option.none => r
          | some url =>
            match ownerSegments url with
            | [] => r
            | segments => insertRepo domain Option.none repo r segments "") 
        (mkOwnerNode "" "" [] (some domain) Option.none)) = true :=
      ownerFold_allCollapsed domain repos _ (allCollapsed_mkOwnerNode _ _ _ _)
    exact fun t h => (ownerGetChildren_collapsed _ hall c hmem).1 t h
  · intro wt
    exact ⟨by simp [mkWorktreeNode], rfl⟩

/-- Claim C5, witness for the amended theorem at concrete inputs: the domain
node built over `repoA` with no active path is collapsed, and the repository
leaf rendered below the all-collapsed owner node holding `repoA` is not
current. -/
theorem c5_no_active_path_witness :
    (mkDomainNode "a.com" [repoA] Option.none).collapsibleState = CollapsibleState.collapsed
    ∧ (mkRepositoryNode repoA Option.none).isCurrentlyOpen = false :=
  ⟨(c5_no_active_path_states.1 [repoA]
      (RootNode.domainNode (mkDomainNode "a.com" [repoA] Option.none)) (by decide)).1
     (mkDomainNode "a.com" [repoA] Option.none) rfl,
   ((c5_no_active_path_states.2.2.1
      (OwnerTree.mk "x" "x" [repoA] (some "a.com") CollapsibleState.collapsed OwnerChildren.nil)
      (by decide)
      (TreeChild.repoChild (mkRepositoryNode repoA Option.none)) (by decide)).2
     (mkRepositoryNode repoA Option.none) rfl).1⟩

/- ## Claim C4 -/

theorem alookup_mapPush (m : List (String × List RepositoryInfo)) (k : String)
    (r : RepositoryInfo) (d : String) :
    alookup (mapPush m k r) d = if k == d then alookup m d ++ [r] else alookup m d := by
  induction m with
  | nil =>
    by_cases h : k = d <;> simp [mapPush, alookup, List.findSome?, h]
  | cons kv rest ih =>
    obtain ⟨k', l⟩ := kv
    by_cases h1 : k' = k
    · subst h1
      by_cases h2 : k' = d <;> simp [mapPush, alookup, List.findSome?, h2]
    · by_cases h2 : k' = d
      · subst h2
        have h3 : ¬ k = k' := fun hc => h1 hc.symm
        simp [mapPush, alookup, List.findSome?, h1, h3]
      · simp only [mapPush, beq_iff_eq, h1, if_false] at ih ⊢
        simp [alookup, List.findSome?, h2] at ih ⊢
        exact ih

theorem alookup_groupFold (repos : List RepositoryInfo) :
    ∀ (m : List (String × List RepositoryInfo)) (d : String),
      alookup (repos.foldl (fun m repo => mapPush m (repoDomainKey repo) repo) m) d
        = alookup m d ++ repos.filter (fun r => repoDomainKey r == d) := by
  induction repos with
  | nil => intro m d; simp
  | cons r rest ih =>
    intro m d
    simp only [List.foldl_cons, List.filter_cons]
    rw [ih]
    by_cases h : repoDomainKey r = d
    · simp [alookup_mapPush, h]
    · simp [alookup_mapPush, h]

theorem groupByDomain_eq (repos : List RepositoryInfo) :
    groupByDomain repos = repos.foldl (fun m repo => mapPush m (repoDomainKey repo) repo) [] := rfl

theorem alookup_groupByDomain (repos : List RepositoryInfo) (d : String) :
    alookup (groupByDomain repos) d = repos.filter (fun r => repoDomainKey r == d) := by
  rw [groupByDomain_eq, alookup_groupFold]
  simp [alookup]

theorem anyKey_mapPush (m : List (String × List RepositoryInfo)) (k : String)
    (r : RepositoryInfo) (d : String) :
    ((mapPush m k r).any fun kv => kv.1 == d) = ((m.any fun kv => kv.1 == d) || (k == d)) := by
  induction m with
  | nil => simp [mapPush]
  | cons kv rest ih =>
    obtain ⟨k', l⟩ := kv
    by_cases h1 : k' = k
    · subst h1
      by_cases h2 : k' = d <;> simp [mapPush, h2]
    · simp only [mapPush, beq_iff_eq, h1, if_false]
      by_cases h2 : k' = d <;> simp [h2, ih, Bool.or_assoc]

theorem anyKey_groupFold (repos : List RepositoryInfo) :
    ∀ (m : List (String × List RepositoryInfo)) (d : String),
      ((repos.foldl (fun m repo => mapPush m (repoDomainKey repo) repo) m).any
          fun kv => kv.1 == d)
        = ((m.any fun kv => kv.1 == d) || repos.any fun r => repoDomainKey r == d) := by
  induction repos with
  | nil => intro m d; simp
  | cons r rest ih =>
    intro m d
    simp only [List.foldl_cons, List.any_cons]
    rw [ih, anyKey_mapPush]
    by_cases h : repoDomainKey r = d <;> simp [h, Bool.or_assoc, Bool.or_comm, Bool.or_left_comm]

theorem domainBucket_nodes (repos : List RepositoryInfo) (cwp : Option String) (d : String) :
    domainBucket (getRemoteViewRootNodes repos cwp) d
      = (repos.filter fun r => (firstFetchUrl? r).isSome).filter
          fun r => repoDomainKey r == d := by
  simp only [getRemoteViewRootNodes]
  split
  · next h =>
    rw [List.isEmpty_iff] at h
    subst h
    simp [domainBucket, List.findSome?]
  · have hmap : List.findSome?
        (fun n =>
          match n with
          | RootNode.domainNode dn => if dn.domain == d then some dn.repositories else Option.none
          | _ => Option.none)
        ((groupByDomain (repos.filter fun r => (firstFetchUrl? r).isSome)).map
          fun kv => RootNode.domainNode (mkDomainNode kv.1 kv.2 cwp))
        = List.findSome?
            (fun kv => if kv.1 == d then some kv.2 else Option.none)
            (groupByDomain (repos.filter fun r => (firstFetchUrl? r).isSome)) := by
      rw [List.findSome?_map]
      rfl
    split
    · simp only [domainBucket, hmap]
      rw [← alookup_groupByDomain (repos.filter fun r => (firstFetchUrl? r).isSome) d]
      rfl
    · simp only [domainBucket, List.findSome?_append, hmap]
      have hlocal : List.findSome?
          (fun n =>
            match n with
            | RootNode.domainNode dn => if dn.domain == d then some dn.repositories else Option.none
            | _ => Option.none)
          [RootNode.localGroup (mkLocalGroupNode (repos.filter fun r => (firstFetchUrl? r).isNone))]
          = Option.none := by
        simp [List.findSome?]
      rw [hlocal]
      rw [← alookup_groupByDomain (repos.filter fun r => (firstFetchUrl? r).isSome) d]
      simp only [alookup]
      cases List.findSome? (fun kv => if kv.1 == d then some kv.2 else Option.none)
          (groupByDomain (repos.filter fun r => (firstFetchUrl? r).isSome)) <;> rfl

theorem any_map_general {α β : Type} (l : List α) (g : α → β) (p : β → Bool) :
    (l.map g).any p = l.any fun a => p (g a) := by
  induction l with
  | nil => rfl
  | cons a rest ih => simp [ih]

theorem hasDomain_nodes (repos : List RepositoryInfo) (cwp : Option String) (d : String) :
    hasDomain (getRemoteViewRootNodes repos cwp) d
      = (repos.filter fun r => (firstFetchUrl? r).isSome).any
          fun r => repoDomainKey r == d := by
  simp only [getRemoteViewRootNodes]
  split
  · next h =>
    rw [List.isEmpty_iff] at h
    subst h
    simp [hasDomain]
  · have hmap : ((groupByDomain (repos.filter fun r => (firstFetchUrl? r).isSome)).map
        (fun kv => RootNode.domainNode (mkDomainNode kv.1 kv.2 cwp))).any
        (fun n =>
          match n with
          | RootNode.domainNode dn => dn.domain == d
          | _ => false)
        = (groupByDomain (repos.filter fun r => (firstFetchUrl? r).isSome)).any
            fun kv => kv.1 == d := by
      rw [any_map_general]
      rfl
    have hgroup : ((groupByDomain (repos.filter fun r => (firstFetchUrl? r).isSome)).any
        fun kv => kv.1 == d)
        = (repos.filter fun r => (firstFetchUrl? r).isSome).any
            fun r => repoDomainKey r == d := by
      rw [groupByDomain_eq, anyKey_groupFold]
      simp
    split
    · simp only [hasDomain, hmap, hgroup]
    · simp only [hasDomain, List.any_append, hmap, hgroup]
      simp [List.any_cons]
  
theorem localRepos_nodes (repos : List RepositoryInfo) (cwp : Option String) :
    localRepos (getRemoteViewRootNodes repos cwp)
      = repos.filter fun r => (firstFetchUrl? r).isNone := by
  simp only [getRemoteViewRootNodes]
  split
  · next h =>
    rw [List.isEmpty_iff] at h
    subst h
    simp [localRepos, List.findSome?]
  · have hmap : List.findSome?
        (fun n =>
          match n with
          | RootNode.localGroup l => some l.repositories
          | _ => Option.none)
        ((groupByDomain (repos.filter fun r => (firstFetchUrl? r).isSome)).map
          fun kv => RootNode.domainNode (mkDomainNode kv.1 kv.2 cwp))
        = Option.none := by
      rw [List.findSome?_map]
      rw [List.findSome?_eq_none_iff]
      intro kv _
      rfl
    split
    · next hempty =>
      rw [List.isEmpty_iff] at hempty
      simp [localRepos, hmap, hempty]
    · next hempty =>
      simp [localRepos, List.findSome?_append, hmap, List.findSome?, mkLocalGroupNode]

theorem perm_any (p : RepositoryInfo → Bool) {l₁ l₂ : List RepositoryInfo}
    (h : l₁.Perm l₂) : l₁.any p = l₂.any p := by
  apply Bool.eq_iff_iff.mpr
  simp only [List.any_eq_true]
  constructor
  · rintro ⟨x, hx, hp⟩
    exact ⟨x, h.mem_iff.mp hx, hp⟩
  · rintro ⟨x, hx, hp⟩
    exact ⟨x, h.mem_iff.mpr hx, hp⟩

/-- Claim C4 (amended): building the grouping tree from a permuted record list
yields the same domain nodes (same membership test for every domain) with
permutation-equal per-domain repository buckets and a permutation-equal local
group; the trees need not be identical as sequences, because the order of the
domain nodes at the root follows the first occurrence of each domain in the
input, not a sort key. -/
theorem c4_perm_buckets :
    ∀ (repos₁ repos₂ : List RepositoryInfo) (cwp : Option String),
      repos₁.Perm repos₂ →
      (∀ d, (domainBucket (getRemoteViewRootNodes repos₁ cwp) d).Perm
          (domainBucket (getRemoteViewRootNodes repos₂ cwp) d))
      ∧ (∀ d, hasDomain (getRemoteViewRootNodes repos₁ cwp) d
          = hasDomain (getRemoteViewRootNodes repos₂ cwp) d)
      ∧ (localRepos (getRemoteViewRootNodes repos₁ cwp)).Perm
          (localRepos (getRemoteViewRootNodes repos₂ cwp)) := by
  intro r1 r2 cwp h
  refine ⟨fun d => ?_, fun d => ?_, ?_⟩
  · rw [domainBucket_nodes, domainBucket_nodes]
    exact (h.filter _).filter _
  · rw [hasDomain_nodes, hasDomain_nodes]
    exact perm_any _ (h.filter _)
  · rw [localRepos_nodes, localRepos_nodes]
    exact h.filter _


/-- Claim C4, counterexample: permuting two repositories that live on different
domains produces a DIFFERENT root-node sequence — the domain nodes come out in
first-occurrence order of the input, so the built tree is not invariant under
permuting the input. -/
theorem c4_permutation_counterexample :
    getRemoteViewRootNodes [repoA, repoB] Option.none
      ≠ getRemoteViewRootNodes [repoB, repoA] Option.none := by decide

/-- Claim C4, witness for the amended theorem at a concrete permutation: the
`a.com` buckets of the two input orders are permutation-equal. -/
theorem c4_perm_buckets_witness :
    (domainBucket (getRemoteViewRootNodes [repoA, repoB] Option.none) "a.com").Perm
      (domainBucket (getRemoteViewRootNodes [repoB, repoA] Option.none) "a.com") :=
  (c4_perm_buckets [repoA, repoB] [repoB, repoA] Option.none (by decide)).1 "a.com"

/- ## Claims C9 and C10 -/

theorem ownerChildNodes_map (l : List OwnerTree) :
    ownerChildNodes (l.map TreeChild.ownerChild) = l := by
  induction l with
  | nil => rfl
  | cons a rest ih =>
    simp only [ownerChildNodes, List.map_cons, List.filterMap_cons] at ih ⊢
    simp [ih]

theorem repoChildNodes_map (l : List OwnerTree) :
    repoChildNodes (l.map TreeChild.ownerChild) = [] := by
  induction l with
  | nil => rfl
  | cons a rest ih =>
    simp only [repoChildNodes, List.map_cons, List.filterMap_cons] at ih ⊢
    simp [ih]

/-- Claim C9: an owner node with a non-empty children map renders exactly its
child owner nodes, sorted by owner name — no repository leaves at all, so the
repositories in its own bucket are dropped from the display; concretely, with
`repoShallow` attached to owner `org` and `repoDeep` to `org/team` on one
domain, the only repository rendered anywhere below the domain is `repoDeep`:
`repoShallow` appears nowhere in the rendered tree. -/
theorem c9_children_shadow_bucket :
    (∀ (cwp : Option String) (t : OwnerTree), t.children ≠ OwnerChildren.nil →
      repoChildNodes (ownerGetChildren cwp t) = []
      ∧ (ownerChildNodes (ownerGetChildren cwp t)).Perm (t.children.toList.map Prod.snd)
      ∧ List.Sorted ownerOrder (ownerChildNodes (ownerGetChildren cwp t)))
    ∧ renderedAtChildren 5 Option.none
        (getOwnerNodes "h.com" [repoShallow, repoDeep] Option.none) = [repoDeep]
    ∧ repoShallow ∉ renderedAtChildren 5 Option.none
        (getOwnerNodes "h.com" [repoShallow, repoDeep] Option.none) := by
  refine ⟨?_, by decide, by decide⟩
  intro cwp t h
  cases t with
  | mk o f reps dom st ch =>
    cases ch with
    | nil => exact absurd rfl h
    | cons k c0 rest =>
      have hrw : ownerGetChildren cwp
            (OwnerTree.mk o f reps dom st (OwnerChildren.cons k c0 rest))
          = (List.insertionSort ownerOrder
              ((OwnerChildren.cons k c0 rest).toList.map Prod.snd)).map
            TreeChild.ownerChild := rfl
      refine ⟨?_, ?_, ?_⟩
      · rw [hrw, repoChildNodes_map]
      · rw [hrw, ownerChildNodes_map]
        exact List.perm_insertionSort ownerOrder _
      · rw [hrw, ownerChildNodes_map]
        exact List.sorted_insertionSort ownerOrder _

/-- Claim C10: a repository node has children only when the repository has
strictly more than one worktree, and then they are exactly its non-main
worktrees (as a multiset), sorted by worktree name — the main worktree is never
among them. -/
theorem c10_repo_children :
    ∀ (repo : RepositoryInfo) (cwp : Option String),
      (repositoryNodeChildren (mkRepositoryNode repo cwp) cwp ≠ [] →
        repo.worktrees.length > 1)
      ∧ (repo.worktrees.length > 1 →
          ((repositoryNodeChildren (mkRepositoryNode repo cwp) cwp).map
              fun w => w.worktree).Perm
            (repo.worktrees.filter fun wt => !wt.isMain)
          ∧ List.Sorted worktreeOrder
              ((repositoryNodeChildren (mkRepositoryNode repo cwp) cwp).map fun w => w.worktree)
          ∧ ∀ w ∈ repositoryNodeChildren (mkRepositoryNode repo cwp) cwp,
              w.worktree.isMain = false) := by
  intro repo cwp
  have hrepo : (mkRepositoryNode repo cwp).repository = repo := rfl
  by_cases hlen : repo.worktrees.length > 1
  · have hch : repositoryNodeChildren (mkRepositoryNode repo cwp) cwp
        = (List.insertionSort worktreeOrder
            (repo.worktrees.filter fun wt => !wt.isMain)).map
          fun wt => mkWorktreeNode wt cwp := by
      simp [repositoryNodeChildren, hrepo, hlen]
    have hmap : (repositoryNodeChildren (mkRepositoryNode repo cwp) cwp).map
        (fun w => w.worktree)
        = List.insertionSort worktreeOrder (repo.worktrees.filter fun wt => !wt.isMain) := by
      rw [hch, List.map_map]
      exact List.map_id _
    refine ⟨fun _ => hlen, fun _ => ⟨?_, ?_, ?_⟩⟩
    · rw [hmap]
      exact List.perm_insertionSort worktreeOrder _
    · rw [hmap]
      exact List.sorted_insertionSort worktreeOrder _
    · intro w hw
      rw [hch] at hw
      simp only [List.mem_map, List.mem_insertionSort, List.mem_filter] at hw
      obtain ⟨wt, ⟨_, hmain⟩, hww⟩ := hw
      subst hww
      simpa using hmain
  · have hch : repositoryNodeChildren (mkRepositoryNode repo cwp) cwp = [] := by
      simp [repositoryNodeChildren, hrepo, hlen]
    exact ⟨fun hne => absurd hch hne, fun h => absurd h hlen⟩

/-- Claim C9, witness at a concrete owner node with a non-empty children map:
its rendered children contain no repository leaf, dropping its own bucket. -/
theorem c9_children_shadow_bucket_witness :
    repoChildNodes (ownerGetChildren Option.none
      (OwnerTree.mk "org" "org" [repoShallow] (some "h.com") CollapsibleState.collapsed
        (OwnerChildren.cons "team"
          (OwnerTree.mk "team" "org/team" [repoDeep] (some "h.com")
            CollapsibleState.collapsed OwnerChildren.nil)
          OwnerChildren.nil))) = [] :=
  (c9_children_shadow_bucket.1 Option.none
    (OwnerTree.mk "org" "org" [repoShallow] (some "h.com") CollapsibleState.collapsed
      (OwnerChildren.cons "team"
        (OwnerTree.mk "team" "org/team" [repoDeep] (some "h.com")
          CollapsibleState.collapsed OwnerChildren.nil)
        OwnerChildren.nil))
    (by decide)).1

/-- Claim C10, witness at the two-worktree repository `repoR`: its rendered
children are exactly its non-main worktrees, as a permutation. -/
theorem c10_repo_children_witness :
    ((repositoryNodeChildren (mkRepositoryNode repoR Option.none) Option.none).map
        fun w => w.worktree).Perm
      (repoR.worktrees.filter fun wt => !wt.isMain) :=
  ((c10_repo_children repoR Option.none).2 (by decide)).1
